import Mathlib

/-!
Verification of the Cisco FTD elephant-flow connection parser
(`connection_parser.py`, class `ConnectionParser`).

Text is modelled as `List Char` (Python `str`); Python `int` as `Nat`/`Int`;
Python `float` arithmetic as exact rational arithmetic over `ℚ`; Python
dictionaries whose fields are optionally present as structures of `Option`
fields; Python exceptions as `Option`/`Except` results.
-/

/-- Coerce a Lean string literal to the `List Char` text model. -/
def chars (s : String) : List Char := s.data

/-- Whitespace test matching Python `str.strip` / `str.split` defaults
(space, tab, newline, carriage return, vertical tab, form feed). -/
def isWS (c : Char) : Bool :=
  c = ' ' || c = '\t' || c = '\n' || c = '\r' || c = '\x0b' || c = '\x0c'

/-- Python `s.strip()`: remove leading and trailing whitespace. -/
def stripWS (s : List Char) : List Char :=
  ((s.dropWhile isWS).reverse.dropWhile isWS).reverse

/-- Python `s.rstrip(c)` for a single character `c`: remove the trailing
run of `c`. -/
def rstripC (c : Char) (s : List Char) : List Char :=
  (s.reverse.dropWhile (· = c)).reverse

/-- Python `c in s` membership test for a single character. -/
def containsC (c : Char) (s : List Char) : Bool := s.any (· = c)

/-- Python `pat in s` substring-containment test, and prefix test used to
model `str.startswith` and anchored regex matching. -/
def startsWithL (pat s : List Char) : Bool :=
  match pat, s with
  | [], _ => true
  | _ :: _, [] => false
  | p :: ps, c :: cs => p = c && startsWithL ps cs

/-- Python `pat in s`: `pat` occurs as a contiguous substring of `s`. -/
def isInfixB (pat s : List Char) : Bool :=
  match s with
  | [] => startsWithL pat []
  | _ :: cs => startsWithL pat s || isInfixB pat cs

/-- Python `s.split(c)` for a single-character separator. -/
def splitC (c : Char) (s : List Char) : List (List Char) :=
  match s with
  | [] => [[]]
  | a :: rest =>
    if a = c then [] :: splitC c rest
    else
      match splitC c rest with
      | [] => [[a]]
      | w :: ws => (a :: w) :: ws

/-- Numeric value of a run of ASCII digits (Python `int(...)` on the
digit group captured by a regex). -/
def digitsVal (l : List Char) : Nat :=
  l.foldl (fun a c => a * 10 + (c.toNat - 48)) 0

/-- Python `s.isdigit()` restricted to ASCII: nonempty and all digits. -/
def isDigits (s : List Char) : Bool := !s.isEmpty && s.all Char.isDigit

/-- Semantics of `re.search(r'(\d+)U', s)` for a literal unit character
`U`: scanning left to right, the first position opening a maximal digit
run that is immediately followed by `U` yields that run's value.
Models the unit searches of `_parse_time_to_seconds`. -/
def findUnit (u : Char) : List Char → Option Nat
  | [] => none
  | c :: rest =>
    if c.isDigit then
      match (c :: rest).dropWhile Char.isDigit with
      | u' :: _ =>
        if u' = u then some (digitsVal ((c :: rest).takeWhile Char.isDigit))
        else findUnit u rest
      | [] => findUnit u rest
    else findUnit u rest

/-- Model of `ConnectionParser._parse_time_to_seconds`: strip trailing commas, then
independently search for year/day/hour/minute/second components and sum
them; empty input returns 0 and no input ever fails. -/
def parseTimeToSeconds (s : List Char) : Nat :=
  if s = [] then 0
  else
    let t := rstripC ',' s
    (findUnit 'Y' t).getD 0 * (365 * 24 * 3600)
      + (findUnit 'D' t).getD 0 * (24 * 3600)
      + (findUnit 'h' t).getD 0 * 3600
      + (findUnit 'm' t).getD 0 * 60
      + (findUnit 's' t).getD 0

theorem rstripC_append_single (c : Char) (s : List Char) :
    rstripC c (s ++ [c]) = rstripC c s := by
  simp [rstripC, List.dropWhile]

theorem parseTimeToSeconds_eq_sum (s : List Char) :
    parseTimeToSeconds s =
      (findUnit 'Y' (rstripC ',' s)).getD 0 * (365 * 24 * 3600)
        + (findUnit 'D' (rstripC ',' s)).getD 0 * (24 * 3600)
        + (findUnit 'h' (rstripC ',' s)).getD 0 * 3600
        + (findUnit 'm' (rstripC ',' s)).getD 0 * 60
        + (findUnit 's' (rstripC ',' s)).getD 0 := by
  by_cases h : s = []
  · subst h; simp [parseTimeToSeconds, rstripC, findUnit]
  · simp [parseTimeToSeconds, h]

/-- C2: the duration parser returns the sum of independently matched
year/day/hour/minute/second components of the comma-rstripped input (a
`Nat`, hence non-negative, and total, hence never raising); a trailing
comma never changes the result; unrecognized or empty input yields 0;
`parseDuration("1Y25D") = 33696000`, `parseDuration("2h39m") = 9540`, and
component order does not matter (`"25D1Y"` gives the same seconds as
`"1Y25D"`). -/
theorem C2_duration_parser_sums_components :
    (∀ s : List Char,
        parseTimeToSeconds s =
          (findUnit 'Y' (rstripC ',' s)).getD 0 * (365 * 24 * 3600)
            + (findUnit 'D' (rstripC ',' s)).getD 0 * (24 * 3600)
            + (findUnit 'h' (rstripC ',' s)).getD 0 * 3600
            + (findUnit 'm' (rstripC ',' s)).getD 0 * 60
            + (findUnit 's' (rstripC ',' s)).getD 0)
      ∧ (∀ s : List Char, parseTimeToSeconds (s ++ [',']) = parseTimeToSeconds s)
      ∧ parseTimeToSeconds (chars "1Y25D") = 33696000
      ∧ parseTimeToSeconds (chars "2h39m") = 9540
      ∧ parseTimeToSeconds (chars "25D1Y") = 33696000
      ∧ parseTimeToSeconds (chars "2h39m,") = 9540
      ∧ parseTimeToSeconds [] = 0
      ∧ parseTimeToSeconds (chars "hello") = 0 := by
  refine ⟨parseTimeToSeconds_eq_sum, ?_, by decide, by decide, by decide, by decide, by decide, by decide⟩
  intro s
  rw [parseTimeToSeconds_eq_sum, parseTimeToSeconds_eq_sum, rstripC_append_single]

/-- Structured flag classification produced by
`ConnectionParser._parse_connection_flags` for a nonempty flag string.
Flag lists hold (code, description) pairs in the order appended. -/
structure FlagInfo where
  raw_flags : List Char
  has_elephant_flag : Bool
  elephant_flag_type : Option (List Char)
  is_offloaded : Bool
  is_snort_inspected : Bool
  snort_flags : List (List Char × List Char)
  tcp_state_flags : List (List Char × List Char)
  protocol_flags : List (List Char × List Char)
  special_flags : List (List Char × List Char)
deriving DecidableEq, Repr

/-- The `snort_patterns` table (N1..N6) in its source iteration order. -/
def snortPatterns : List (List Char × List Char) :=
  [(chars "N1", chars "preserve-connection enabled"),
   (chars "N2", chars "preserve-connection in effect"),
   (chars "N3", chars "elephant-flow"),
   (chars "N4", chars "elephant-flow bypassed"),
   (chars "N5", chars "elephant-flow throttled"),
   (chars "N6", chars "elephant-flow exempted")]

/-- The literal list `['N3', 'N4', 'N5', 'N6']` tested inside the snort
loop to mark elephant-flow flags. -/
def elephantCodes : List (List Char) :=
  [chars "N3", chars "N4", chars "N5", chars "N6"]

/-- The `tcp_flags` single-character table in source order. -/
def tcpFlagTable : List (Char × List Char) :=
  [('U', chars "up"), ('F', chars "initiator FIN"), ('f', chars "responder FIN"),
   ('R', chars "initiator acknowledged FIN"), ('r', chars "responder acknowledged FIN"),
   ('A', chars "awaiting responder ACK to SYN"), ('a', chars "awaiting initiator ACK to SYN"),
   ('I', chars "initiator data"), ('O', chars "responder data"), ('i', chars "incomplete")]

/-- The `protocol_flags` single-character table in source order. -/
def protocolFlagTable : List (Char × List Char) :=
  [('T', chars "SIP"), ('t', chars "SIP transient"), ('H', chars "H.323"), ('h', chars "H.225.0"),
   ('M', chars "SMTP data"), ('m', chars "SIP media"), ('D', chars "DNS"), ('Q', chars "QUIC"),
   ('G', chars "group"), ('g', chars "MGCP"), ('J', chars "GTP"), ('j', chars "GTP data"),
   ('k', chars "Skinny media"), ('L', chars "decap tunnel"), ('q', chars "SQL*Net data"),
   ('B', chars "TCP probe for server certificate"), ('b', chars "TCP state-bypass or nailed"),
   ('C', chars "CTIQBE media"), ('c', chars "cluster centralized"), ('d', chars "dump"),
   ('E', chars "outside back connection"), ('e', chars "semi-distributed"),
   ('K', chars "GTP t3-response"), ('n', chars "GUP"), ('P', chars "inside back connection"),
   ('p', chars "passenger flow"), ('V', chars "VPN orphan"), ('v', chars "M3UA"),
   ('W', chars "WAAS"), ('w', chars "secondary domain backup"),
   ('X', chars "inspected by service module"), ('x', chars "per session"),
   ('Y', chars "director stub flow"), ('y', chars "backup stub flow"),
   ('Z', chars "Scansafe redirection"), ('z', chars "forwarding stub flow")]

/-- The cleanup `flags_str.replace('-', '').strip()` applied before any
flag test. -/
def cleanFlags (s : List Char) : List Char := stripWS (s.filter (· ≠ '-'))

/-- One iteration of the snort-pattern loop: on a substring match, append
to `snort_flags`, set `is_snort_inspected`, and for elephant codes also
set `has_elephant_flag` and overwrite `elephant_flag_type`. -/
def snortStep (c : List Char) (st : FlagInfo) (pr : List Char × List Char) : FlagInfo :=
  if isInfixB pr.1 c then
    let st1 := { st with snort_flags := st.snort_flags ++ [pr], is_snort_inspected := true }
    if pr.1 ∈ elephantCodes then
      { st1 with has_elephant_flag := true, elephant_flag_type := some pr.1 }
    else st1
  else st

/-- Model of `ConnectionParser._parse_connection_flags`: empty input returns the
empty dictionary (`none`); otherwise every code is tested by independent
substring containment against the cleaned flag string. -/
def parseConnectionFlags (s : List Char) : Option FlagInfo :=
  if s = [] then none
  else
    let flags := cleanFlags s
    let st0 : FlagInfo :=
      { raw_flags := flags, has_elephant_flag := false, elephant_flag_type := none,
        is_offloaded := false, is_snort_inspected := false, snort_flags := [],
        tcp_state_flags := [], protocol_flags := [], special_flags := [] }
    let st1 := snortPatterns.foldl (snortStep flags) st0
    let st2 :=
      if containsC 'o' flags then
        { st1 with is_offloaded := true,
                   special_flags := st1.special_flags ++ [(chars "o", chars "offloaded")] }
      else st1
    let st3 :=
      { st2 with
          tcp_state_flags :=
            (tcpFlagTable.filter (fun pr : Char × List Char => containsC pr.1 flags)).map
              (fun pr : Char × List Char => ([pr.1], pr.2)),
          protocol_flags :=
            (protocolFlagTable.filter (fun pr : Char × List Char => containsC pr.1 flags)).map
              (fun pr : Char × List Char => ([pr.1], pr.2)) }
    some { st3 with
             special_flags :=
               st3.special_flags ++
                 (if isInfixB (chars "Z1") flags then
                    [(chars "Z1", chars "zero-trust flow")] else []) }

/-- The specification's tie-break: the last code among N3,N4,N5,N6, in
that fixed enumeration order, occurring as a substring. -/
def lastElephantMatch (c : List Char) : Option (List Char) :=
  elephantCodes.foldl (fun a p => if isInfixB p c then some p else a) none

theorem snortFold_type (c : List Char) (L : List (List Char × List Char)) (st : FlagInfo) :
    (L.foldl (snortStep c) st).elephant_flag_type =
      L.foldl
        (fun a pr => if isInfixB pr.1 c && decide (pr.1 ∈ elephantCodes) then some pr.1 else a)
        st.elephant_flag_type := by
  induction L generalizing st with
  | nil => rfl
  | cons pr L ih =>
    simp only [List.foldl_cons, ih]
    congr 1
    simp only [snortStep]
    by_cases h1 : isInfixB pr.1 c <;> by_cases h2 : pr.1 ∈ elephantCodes <;> simp [h1, h2]

theorem snortFold_has (c : List Char) (L : List (List Char × List Char)) (st : FlagInfo) :
    (L.foldl (snortStep c) st).has_elephant_flag =
      (st.has_elephant_flag
        || L.any (fun pr => isInfixB pr.1 c && decide (pr.1 ∈ elephantCodes))) := by
  induction L generalizing st with
  | nil => simp
  | cons pr L ih =>
    simp only [List.foldl_cons, List.any_cons, ih]
    have : (snortStep c st pr).has_elephant_flag =
        (st.has_elephant_flag || (isInfixB pr.1 c && decide (pr.1 ∈ elephantCodes))) := by
      simp only [snortStep]
      by_cases h1 : isInfixB pr.1 c <;> by_cases h2 : pr.1 ∈ elephantCodes <;> simp [h1, h2]
    rw [this, Bool.or_assoc]

theorem snortFold_inspected (c : List Char) (L : List (List Char × List Char)) (st : FlagInfo) :
    (L.foldl (snortStep c) st).is_snort_inspected =
      (st.is_snort_inspected || L.any (fun pr => isInfixB pr.1 c)) := by
  induction L generalizing st with
  | nil => simp
  | cons pr L ih =>
    simp only [List.foldl_cons, List.any_cons, ih]
    have : (snortStep c st pr).is_snort_inspected =
        (st.is_snort_inspected || isInfixB pr.1 c) := by
      simp only [snortStep]
      by_cases h1 : isInfixB pr.1 c <;> by_cases h2 : pr.1 ∈ elephantCodes <;> simp [h1, h2]
    rw [this, Bool.or_assoc]

theorem snortFold_flags (c : List Char) (L : List (List Char × List Char)) (st : FlagInfo) :
    (L.foldl (snortStep c) st).snort_flags =
      st.snort_flags ++ L.filter (fun pr => isInfixB pr.1 c) := by
  induction L generalizing st with
  | nil => simp
  | cons pr L ih =>
    simp only [List.foldl_cons, ih]
    have : (snortStep c st pr).snort_flags =
        st.snort_flags ++ (if isInfixB pr.1 c then [pr] else []) := by
      simp only [snortStep]
      by_cases h1 : isInfixB pr.1 c <;> by_cases h2 : pr.1 ∈ elephantCodes <;> simp [h1, h2]
    rw [this, List.filter_cons]
    by_cases h1 : isInfixB pr.1 c <;> simp [h1]

theorem parseConnectionFlags_eq (s : List Char) (fi : FlagInfo)
    (h : parseConnectionFlags s = some fi) :
    fi.elephant_flag_type = (snortPatterns.foldl (snortStep (cleanFlags s))
        { raw_flags := cleanFlags s, has_elephant_flag := false, elephant_flag_type := none,
          is_offloaded := false, is_snort_inspected := false, snort_flags := [],
          tcp_state_flags := [], protocol_flags := [], special_flags := [] }).elephant_flag_type
    ∧ fi.has_elephant_flag = (snortPatterns.foldl (snortStep (cleanFlags s))
        { raw_flags := cleanFlags s, has_elephant_flag := false, elephant_flag_type := none,
          is_offloaded := false, is_snort_inspected := false, snort_flags := [],
          tcp_state_flags := [], protocol_flags := [], special_flags := [] }).has_elephant_flag
    ∧ fi.is_snort_inspected = (snortPatterns.foldl (snortStep (cleanFlags s))
        { raw_flags := cleanFlags s, has_elephant_flag := false, elephant_flag_type := none,
          is_offloaded := false, is_snort_inspected := false, snort_flags := [],
          tcp_state_flags := [], protocol_flags := [], special_flags := [] }).is_snort_inspected
    ∧ fi.snort_flags = (snortPatterns.foldl (snortStep (cleanFlags s))
        { raw_flags := cleanFlags s, has_elephant_flag := false, elephant_flag_type := none,
          is_offloaded := false, is_snort_inspected := false, snort_flags := [],
          tcp_state_flags := [], protocol_flags := [], special_flags := [] }).snort_flags := by
  by_cases hs : s = []
  · subst hs; simp [parseConnectionFlags] at h
  · simp only [parseConnectionFlags, hs, if_neg] at h
    by_cases ho : containsC 'o' (cleanFlags s) <;>
      [skip; skip] <;>
      simp only [ho, if_true, if_false, Bool.false_eq_true] at h <;>
      (injection h with h; subst h) <;>
      exact ⟨rfl, rfl, rfl, rfl⟩

/-- C3: after decoding a nonempty flag string, `elephant_flag_type` is the
last code among N3,N4,N5,N6 (in that fixed enumeration order) occurring as
a substring of the cleaned flag string; `has_elephant_flag` holds iff at
least one of N3..N6 occurs; and any of N1..N6 occurring sets
`is_snort_inspected` and appends that code to `snort_flags`. -/
theorem C3_elephant_flag_decode (s : List Char) (fi : FlagInfo)
    (h : parseConnectionFlags s = some fi) :
    fi.elephant_flag_type = lastElephantMatch (cleanFlags s)
      ∧ fi.has_elephant_flag = elephantCodes.any (fun p => isInfixB p (cleanFlags s))
      ∧ ∀ pr ∈ snortPatterns, isInfixB pr.1 (cleanFlags s) = true →
          fi.is_snort_inspected = true ∧ pr.1 ∈ fi.snort_flags.map Prod.fst := by
  obtain ⟨ht, hh, hi, hf⟩ := parseConnectionFlags_eq s fi h
  have e1 : decide (chars "N1" ∈ ([chars "N3", chars "N4", chars "N5", chars "N6"] :
      List (List Char))) = false := by decide
  have e2 : decide (chars "N2" ∈ ([chars "N3", chars "N4", chars "N5", chars "N6"] :
      List (List Char))) = false := by decide
  have e3 : decide (chars "N3" ∈ ([chars "N3", chars "N4", chars "N5", chars "N6"] :
      List (List Char))) = true := by decide
  have e4 : decide (chars "N4" ∈ ([chars "N3", chars "N4", chars "N5", chars "N6"] :
      List (List Char))) = true := by decide
  have e5 : decide (chars "N5" ∈ ([chars "N3", chars "N4", chars "N5", chars "N6"] :
      List (List Char))) = true := by decide
  have e6 : decide (chars "N6" ∈ ([chars "N3", chars "N4", chars "N5", chars "N6"] :
      List (List Char))) = true := by decide
  have f13 : chars "N1" ≠ chars "N3" := by decide
  have f14 : chars "N1" ≠ chars "N4" := by decide
  have f15 : chars "N1" ≠ chars "N5" := by decide
  have f16 : chars "N1" ≠ chars "N6" := by decide
  have f23 : chars "N2" ≠ chars "N3" := by decide
  have f24 : chars "N2" ≠ chars "N4" := by decide
  have f25 : chars "N2" ≠ chars "N5" := by decide
  have f26 : chars "N2" ≠ chars "N6" := by decide
  refine ⟨?_, ?_, ?_⟩
  · rw [ht, snortFold_type]
    simp only [snortPatterns, lastElephantMatch, elephantCodes, List.foldl_cons,
      List.foldl_nil]
    simp [e1, e2, e3, e4, e5, e6, f13, f14, f15, f16, f23, f24, f25, f26]
  · rw [hh, snortFold_has]
    simp only [snortPatterns, elephantCodes, List.any_cons, List.any_nil]
    simp [e1, e2, e3, e4, e5, e6, f13, f14, f15, f16, f23, f24, f25, f26]
  · intro pr hpr hinf
    constructor
    · rw [hi, snortFold_inspected]
      simp only [Bool.false_or]
      exact List.any_eq_true.mpr ⟨pr, hpr, hinf⟩
    · rw [hf, snortFold_flags]
      simp only [List.nil_append]
      exact List.mem_map.mpr ⟨pr, List.mem_filter.mpr ⟨hpr, hinf⟩, rfl⟩

/-- The decoded classification of the specification example `"UIO N1N3"`. -/
def exFlagsUIO : FlagInfo :=
  { raw_flags := chars "UIO N1N3", has_elephant_flag := true,
    elephant_flag_type := some (chars "N3"), is_offloaded := false,
    is_snort_inspected := true,
    snort_flags := [(chars "N1", chars "preserve-connection enabled"),
                    (chars "N3", chars "elephant-flow")],
    tcp_state_flags := [(chars "U", chars "up"), (chars "I", chars "initiator data"),
                        (chars "O", chars "responder data")],
    protocol_flags := [], special_flags := [] }

/-- Witness for C3 at the specification example: decoding `"UIO N1N3"`
gives `elephantFlagType = "N3"`, snort inspection, and N1 in the snort
flag list. -/
theorem C3_witness_decode_UIO_N1N3 :
    parseConnectionFlags (chars "UIO N1N3") = some exFlagsUIO
      ∧ exFlagsUIO.elephant_flag_type = lastElephantMatch (cleanFlags (chars "UIO N1N3"))
      ∧ exFlagsUIO.elephant_flag_type = some (chars "N3")
      ∧ exFlagsUIO.is_snort_inspected = true
      ∧ chars "N1" ∈ exFlagsUIO.snort_flags.map Prod.fst := by
  have h : parseConnectionFlags (chars "UIO N1N3") = some exFlagsUIO := by decide
  obtain ⟨h1, _, h3⟩ := C3_elephant_flag_decode (chars "UIO N1N3") exFlagsUIO h
  have hN1 := h3 (chars "N1", chars "preserve-connection enabled") (by decide) (by decide)
  exact ⟨h, h1, by decide, hN1.1, hN1.2⟩

/-- Access to the possibly-empty flag dictionary: models
`flag_info.get('has_elephant_flag', False)` and friends as used by the
classifier and the reporting code. -/
def fiHasElephant (o : Option FlagInfo) : Bool :=
  (o.map FlagInfo.has_elephant_flag).getD false

/-- Dictionary access `flag_info.get('elephant_flag_type', None)`. -/
def fiElephantType (o : Option FlagInfo) : Option (List Char) :=
  (o.map FlagInfo.elephant_flag_type).getD none

/-- Dictionary access `flag_info.get('is_offloaded', False)`. -/
def fiIsOffloaded (o : Option FlagInfo) : Bool :=
  (o.map FlagInfo.is_offloaded).getD false

/-- Dictionary access `flag_info.get('is_snort_inspected', False)`. -/
def fiIsSnort (o : Option FlagInfo) : Bool :=
  (o.map FlagInfo.is_snort_inspected).getD false

/-- Dictionary access `flag_info.get('snort_flags', [])`. -/
def fiSnortFlags (o : Option FlagInfo) : List (List Char × List Char) :=
  (o.map FlagInfo.snort_flags).getD []

/-- Dictionary access `flag_info.get('tcp_state_flags', [])`. -/
def fiTcpStateFlags (o : Option FlagInfo) : List (List Char × List Char) :=
  (o.map FlagInfo.tcp_state_flags).getD []

/-- Dictionary access `flag_info.get('protocol_flags', [])`. -/
def fiProtocolFlags (o : Option FlagInfo) : List (List Char × List Char) :=
  (o.map FlagInfo.protocol_flags).getD []

/-- Dictionary access `flag_info.get('special_flags', [])`. -/
def fiSpecialFlags (o : Option FlagInfo) : List (List Char × List Char) :=
  (o.map FlagInfo.special_flags).getD []

/-- The classifier's flag decoding of an optional stored flag string:
absent flags give the empty dictionary, as does an empty flag string. -/
def flagInfoOf (flags : Option (List Char)) : Option FlagInfo :=
  flags.bind parseConnectionFlags

/-- C6: empty or absent raw flags yield the all-default, all-empty flag
classification — no elephant flag, no elephant type, not offloaded, not
snort inspected, and all four flag lists empty — and (being a total
function) never an error. -/
theorem C6_empty_flags_default :
    parseConnectionFlags [] = none
      ∧ flagInfoOf none = none
      ∧ flagInfoOf (some []) = none
      ∧ fiHasElephant (flagInfoOf none) = false
      ∧ fiElephantType (flagInfoOf none) = none
      ∧ fiIsOffloaded (flagInfoOf none) = false
      ∧ fiIsSnort (flagInfoOf none) = false
      ∧ fiSnortFlags (flagInfoOf none) = []
      ∧ fiTcpStateFlags (flagInfoOf none) = []
      ∧ fiProtocolFlags (flagInfoOf none) = []
      ∧ fiSpecialFlags (flagInfoOf none) = []
      ∧ fiHasElephant (flagInfoOf (some [])) = false
      ∧ fiElephantType (flagInfoOf (some [])) = none
      ∧ fiIsOffloaded (flagInfoOf (some [])) = false
      ∧ fiIsSnort (flagInfoOf (some [])) = false
      ∧ fiSnortFlags (flagInfoOf (some [])) = []
      ∧ fiTcpStateFlags (flagInfoOf (some [])) = []
      ∧ fiProtocolFlags (flagInfoOf (some [])) = []
      ∧ fiSpecialFlags (flagInfoOf (some [])) = [] := by
  decide

/-- Traffic-rate record computed by
`ConnectionParser._calculate_traffic_rate`; Python float arithmetic is
modelled exactly over `ℚ`. -/
structure RateInfo where
  bytes_per_second : ℚ
  bytes_per_minute : ℚ
  bytes_per_hour : ℚ
  mbps : ℚ
  rate_category : List Char
deriving DecidableEq, Repr

/-- Model of `ConnectionParser._calculate_traffic_rate`. -/
def calcTrafficRate (bytes_count uptime_seconds : ℤ) : RateInfo :=
  if uptime_seconds ≤ 0 then
    { bytes_per_second := 0, bytes_per_minute := 0, bytes_per_hour := 0, mbps := 0,
      rate_category := chars "unknown" }
  else
    let bps : ℚ := (bytes_count : ℚ) / (uptime_seconds : ℚ)
    let mbps : ℚ := bps * 8 / (1024 * 1024)
    { bytes_per_second := bps, bytes_per_minute := bps * 60, bytes_per_hour := bps * 3600,
      mbps := mbps,
      rate_category :=
        if 1000 ≤ mbps then chars "extremely_high"
        else if 100 ≤ mbps then chars "very_high"
        else if 10 ≤ mbps then chars "high"
        else if 1 ≤ mbps then chars "medium"
        else if 1 / 10 ≤ mbps then chars "low"
        else chars "very_low" }

/-- C4: for byte count `b ≥ 0`: non-positive elapsed seconds give all-zero
metrics and category `unknown`; positive elapsed seconds give
`bytesPerSecond = b/s`, per-minute and per-hour scalings,
`mbps = (b/s)*8/(1024*1024)`, and the category determined by the
thresholds 1000/100/10/1/0.1 on `mbps`; concretely,
`b = 7688943400093`, `s = 33696000` gives `mbps` strictly between 1.74
and 1.75 with category `medium`. -/
theorem C4_traffic_rate (b s : ℤ) (hb : 0 ≤ b) :
    (s ≤ 0 →
        (calcTrafficRate b s).bytes_per_second = 0
          ∧ (calcTrafficRate b s).bytes_per_minute = 0
          ∧ (calcTrafficRate b s).bytes_per_hour = 0
          ∧ (calcTrafficRate b s).mbps = 0
          ∧ (calcTrafficRate b s).rate_category = chars "unknown")
      ∧ (0 < s →
        (calcTrafficRate b s).bytes_per_second = (b : ℚ) / (s : ℚ)
          ∧ (calcTrafficRate b s).bytes_per_minute = (b : ℚ) / (s : ℚ) * 60
          ∧ (calcTrafficRate b s).bytes_per_hour = (b : ℚ) / (s : ℚ) * 3600
          ∧ (calcTrafficRate b s).mbps = (b : ℚ) / (s : ℚ) * 8 / (1024 * 1024)
          ∧ (1000 ≤ (calcTrafficRate b s).mbps →
              (calcTrafficRate b s).rate_category = chars "extremely_high")
          ∧ (100 ≤ (calcTrafficRate b s).mbps ∧ (calcTrafficRate b s).mbps < 1000 →
              (calcTrafficRate b s).rate_category = chars "very_high")
          ∧ (10 ≤ (calcTrafficRate b s).mbps ∧ (calcTrafficRate b s).mbps < 100 →
              (calcTrafficRate b s).rate_category = chars "high")
          ∧ (1 ≤ (calcTrafficRate b s).mbps ∧ (calcTrafficRate b s).mbps < 10 →
              (calcTrafficRate b s).rate_category = chars "medium")
          ∧ (1 / 10 ≤ (calcTrafficRate b s).mbps ∧ (calcTrafficRate b s).mbps < 1 →
              (calcTrafficRate b s).rate_category = chars "low")
          ∧ ((calcTrafficRate b s).mbps < 1 / 10 →
              (calcTrafficRate b s).rate_category = chars "very_low"))
      ∧ ((174 / 100 : ℚ) < (calcTrafficRate 7688943400093 33696000).mbps
          ∧ (calcTrafficRate 7688943400093 33696000).mbps < 175 / 100
          ∧ (calcTrafficRate 7688943400093 33696000).rate_category = chars "medium") := by
  clear hb
  refine ⟨?_, ?_, by norm_num [calcTrafficRate], by norm_num [calcTrafficRate],
    by norm_num [calcTrafficRate]⟩
  · intro hs
    simp [calcTrafficRate, hs]
  · intro hs
    have hns : ¬ s ≤ 0 := not_le.mpr hs
    have hc : calcTrafficRate b s =
        { bytes_per_second := (b : ℚ) / (s : ℚ),
          bytes_per_minute := (b : ℚ) / (s : ℚ) * 60,
          bytes_per_hour := (b : ℚ) / (s : ℚ) * 3600,
          mbps := (b : ℚ) / (s : ℚ) * 8 / (1024 * 1024),
          rate_category :=
            if 1000 ≤ (b : ℚ) / (s : ℚ) * 8 / (1024 * 1024) then chars "extremely_high"
            else if 100 ≤ (b : ℚ) / (s : ℚ) * 8 / (1024 * 1024) then chars "very_high"
            else if 10 ≤ (b : ℚ) / (s : ℚ) * 8 / (1024 * 1024) then chars "high"
            else if 1 ≤ (b : ℚ) / (s : ℚ) * 8 / (1024 * 1024) then chars "medium"
            else if 1 / 10 ≤ (b : ℚ) / (s : ℚ) * 8 / (1024 * 1024) then chars "low"
            else chars "very_low" } := by
      simp only [calcTrafficRate, hns, if_false]
    rw [hc]
    refine ⟨rfl, rfl, rfl, rfl, ?_, ?_, ?_, ?_, ?_, ?_⟩ <;> intro h <;> dsimp only at h ⊢
    · simp only [h, if_pos]
    · rw [if_neg (not_le.mpr h.2), if_pos h.1]
    · rw [if_neg (not_le.mpr (h.2.trans (by norm_num))),
        if_neg (not_le.mpr h.2), if_pos h.1]
    · rw [if_neg (not_le.mpr (h.2.trans (by norm_num))),
        if_neg (not_le.mpr (h.2.trans (by norm_num))),
        if_neg (not_le.mpr h.2), if_pos h.1]
    · rw [if_neg (not_le.mpr (h.2.trans (by norm_num))),
        if_neg (not_le.mpr (h.2.trans (by norm_num))),
        if_neg (not_le.mpr (h.2.trans (by norm_num))),
        if_neg (not_le.mpr h.2), if_pos h.1]
    · rw [if_neg (not_le.mpr (h.trans (by norm_num))),
        if_neg (not_le.mpr (h.trans (by norm_num))),
        if_neg (not_le.mpr (h.trans (by norm_num))),
        if_neg (not_le.mpr h), if_neg (not_le.mpr (lt_of_lt_of_le h (by norm_num)))]

/-- Witness for C4: the zero-uptime branch at `(28, 0)` and the medium
category at the sample values, obtained from the theorem at concrete
inputs. -/
theorem C4_traffic_rate_witness :
    (calcTrafficRate 28 0).rate_category = chars "unknown"
      ∧ (calcTrafficRate 7688943400093 33696000).rate_category = chars "medium" := by
  have h0 := C4_traffic_rate 28 0 (by decide)
  exact ⟨(h0.1 (by decide)).2.2.2.2, h0.2.2.2.2⟩

/-- Helper for `words`: accumulates the current word (reversed) while
scanning. -/
def wordsAux : List Char → List Char → List (List Char)
  | [], acc => if acc = [] then [] else [acc.reverse]
  | c :: rest, acc =>
    if isWS c then
      if acc = [] then wordsAux rest [] else acc.reverse :: wordsAux rest []
    else wordsAux rest (c :: acc)

/-- Python `line.split()`: split on whitespace runs, discarding empties. -/
def words (s : List Char) : List (List Char) := wordsAux s []

theorem wordsAux_append_word (w : List Char) (h : ∀ c ∈ w, isWS c = false) :
    ∀ (rest acc : List Char), wordsAux (w ++ rest) acc = wordsAux rest (w.reverse ++ acc) := by
  induction w with
  | nil => intro rest acc; simp
  | cons c w ih =>
    intro rest acc
    have hc : isWS c = false := h c (by simp)
    have hstep : wordsAux ((c :: w) ++ rest) acc = wordsAux (w ++ rest) (c :: acc) := by
      simp [wordsAux, hc]
    rw [hstep, ih (fun x hx => h x (by simp [hx])) rest (c :: acc)]
    simp

theorem wordsAux_space (rest acc : List Char) :
    wordsAux (' ' :: rest) acc =
      if acc = [] then wordsAux rest [] else acc.reverse :: wordsAux rest [] := by
  simp [wordsAux, isWS]

theorem words_word_space (w rest : List Char) (hne : w ≠ [])
    (h : ∀ c ∈ w, isWS c = false) :
    words (w ++ ' ' :: rest) = w :: words rest := by
  unfold words
  rw [wordsAux_append_word w h (' ' :: rest) [], List.append_nil, wordsAux_space]
  have : w.reverse ≠ [] := by simpa using hne
  simp [this]

theorem words_single (w : List Char) (hne : w ≠ []) (h : ∀ c ∈ w, isWS c = false) :
    words w = [w] := by
  unfold words
  have := wordsAux_append_word w h [] []
  rw [List.append_nil] at this
  rw [this]
  have : w.reverse ≠ [] := by simpa using hne
  simp [wordsAux, this]

theorem rstripC_of_not_mem (c : Char) (s : List Char) (h : ∀ x ∈ s, x ≠ c) :
    rstripC c s = s := by
  unfold rstripC
  cases hr : s.reverse with
  | nil =>
    have hs : s = [] := by
      simpa using congrArg List.reverse hr
    simp [hs, List.dropWhile]
  | cons a t =>
    have ha : a ∈ s := by
      rw [← List.mem_reverse, hr]; simp
    rw [List.dropWhile_cons_of_neg (by simpa using h a ha), ← hr, List.reverse_reverse]

theorem containsC_append_cons (c : Char) (a b : List Char) :
    containsC c (a ++ c :: b) = true := by
  simp [containsC]

theorem splitC_of_not_mem (c : Char) (s : List Char) (h : ∀ x ∈ s, x ≠ c) :
    splitC c s = [s] := by
  induction s with
  | nil => rfl
  | cons a rest ih =>
    have ha : ¬ a = c := h a (by simp)
    rw [splitC, if_neg ha, ih (fun x hx => h x (by simp [hx]))]

theorem splitC_ne_nil (c : Char) (s : List Char) : splitC c s ≠ [] := by
  cases s with
  | nil => simp [splitC]
  | cons a rest =>
    rw [splitC]
    split
    · simp
    · cases h : splitC c rest <;> simp

theorem splitC_append_cons (c : Char) (a b : List Char) (h : ∀ x ∈ a, x ≠ c) :
    splitC c (a ++ c :: b) = a :: splitC c b := by
  induction a with
  | nil => simp [splitC]
  | cons x a ih =>
    have hx : ¬ x = c := h x (by simp)
    rw [List.cons_append, splitC, if_neg hx, ih (fun y hy => h y (by simp [hy]))]

/-- One parsed connection: the string-keyed dictionary built by the simple
parsing path, with `none` for absent keys. -/
structure Record where
  protocol : Option (List Char) := none
  src_interface : Option (List Char) := none
  src_ip : Option (List Char) := none
  src_port : Option (List Char) := none
  dst_interface : Option (List Char) := none
  dst_ip : Option (List Char) := none
  dst_port : Option (List Char) := none
  flags : Option (List Char) := none
  idle : Option (List Char) := none
  uptime : Option (List Char) := none
  timeout : Option (List Char) := none
  bytes : Option (List Char) := none
  rx_ring_num : Option (List Char) := none
  internal_data : Option (List Char) := none
  keyid : Option (List Char) := none
  initiator_ip : Option (List Char) := none
  responder_ip : Option (List Char) := none
deriving DecidableEq, Repr

/-- The empty dictionary `{}`. -/
def emptyRecord : Record := {}

/-- Python dictionary truthiness: `{}` is falsy, any set key makes it
truthy. -/
def recNonEmpty (r : Record) : Bool := decide (r ≠ emptyRecord)

/-- The destination half of the hit branch of `_parse_connection_line`:
tokens at offsets `i+2` and `i+3` after the hit (when present) give the
destination interface and the destination ip/port pair. A `split('/')`
that does not produce exactly two pieces models the uncaught
`ValueError` as `none`. -/
def connDst (r2 : Record) (rest2 : List (List Char)) : Option Record :=
  let r3 :=
    match rest2 with
    | d :: _ => { r2 with dst_interface := some (rstripC ':' d) }
    | [] => r2
  match rest2 with
  | _ :: t :: _ =>
    let dip := rstripC ',' t
    if containsC '/' dip then
      match splitC '/' dip with
      | [a, b] => some { r3 with dst_ip := some a, dst_port := some b }
      | _ => none
    else some r3
  | _ => some r3

/-- The scanning loop of `_parse_connection_line`: walk the token list;
at the first token containing `:` whose immediate successor contains `/`,
fill source interface/ip/port and the destination half, then stop. -/
def connScan (r : Record) : List (List Char) → Option Record
  | [] => some r
  | p :: rest =>
    match rest with
    | [] => some r
    | q :: rest2 =>
      if containsC ':' p && containsC '/' q then
        let r1 := { r with src_interface := some (rstripC ':' p) }
        let sip := rstripC ',' q
        if containsC '/' sip then
          match splitC '/' sip with
          | [a, b] => connDst { r1 with src_ip := some a, src_port := some b } rest2
          | _ => none
        else connDst r1 rest2
      else connScan r rest

/-- Model of `ConnectionParser._parse_connection_line`: the first whitespace token
is the protocol (an empty token list models the uncaught `IndexError` of
`parts[0]` as `none`), then the lookahead scan above. -/
def parseConnectionLine (line : List Char) : Option Record :=
  match words line with
  | [] => none
  | p :: ps => connScan { emptyRecord with protocol := some p } (p :: ps)

/-- An interface-name component of a well-formed main line: nonempty, no
whitespace, no colon. -/
def goodIfc (i : List Char) : Prop := i ≠ [] ∧ ∀ c ∈ i, isWS c = false ∧ c ≠ ':'

/-- An IP component of a well-formed main line: nonempty, digits and
dots. -/
def goodIp (i : List Char) : Prop := i ≠ [] ∧ ∀ c ∈ i, c.isDigit = true ∨ c = '.'

/-- A port component of a well-formed main line: nonempty digits. -/
def goodPort (p : List Char) : Prop := p ≠ [] ∧ ∀ c ∈ p, c.isDigit = true

theorem digit_not_WS (c : Char) (h : c.isDigit = true) : isWS c = false := by
  rw [isWS]
  have h1 : c ≠ ' ' := fun e => by rw [e] at h; exact absurd h (by decide)
  have h2 : c ≠ '\t' := fun e => by rw [e] at h; exact absurd h (by decide)
  have h3 : c ≠ '\n' := fun e => by rw [e] at h; exact absurd h (by decide)
  have h4 : c ≠ '\r' := fun e => by rw [e] at h; exact absurd h (by decide)
  have h5 : c ≠ '\x0b' := fun e => by rw [e] at h; exact absurd h (by decide)
  have h6 : c ≠ '\x0c' := fun e => by rw [e] at h; exact absurd h (by decide)
  simp [h1, h2, h3, h4, h5, h6]

theorem digit_ne_of (c d : Char) (h : c.isDigit = true) (hd : d.isDigit = false) :
    c ≠ d := fun e => by rw [e] at h; rw [h] at hd; exact Bool.false_ne_true hd.symm

theorem goodIp_ne (ip : List Char) (h : goodIp ip) (d : Char)
    (hd : d.isDigit = false) (hdot : ('.' : Char) ≠ d) : ∀ x ∈ ip, x ≠ d := by
  intro x hx
  rcases h.2 x hx with hdig | hdotx
  · exact digit_ne_of x d hdig hd
  · rw [hdotx]; exact hdot

theorem goodPort_ne (p : List Char) (h : goodPort p) (d : Char)
    (hd : d.isDigit = false) : ∀ x ∈ p, x ≠ d :=
  fun x hx => digit_ne_of x d (h.2 x hx) hd

theorem goodIp_notWS (ip : List Char) (h : goodIp ip) : ∀ c ∈ ip, isWS c = false := by
  intro c hc
  rcases h.2 c hc with hdig | hdot
  · exact digit_not_WS c hdig
  · rw [hdot]; decide

/-- C5: on a well-formed main line
`<PROTOCOL> <srcIface>: <ip>/<port> <dstIface>: <ip>/<port>,`
the main-line parser recovers protocol, source ip/port and destination
ip/port exactly as given: the first whitespace token becomes the
protocol, and only the first token containing `:` followed by a token
containing `/` is used. -/
theorem C5_main_line_roundtrip
    (proto ifc1 ip1 p1 ifc2 ip2 p2 : List Char)
    (hproto : proto = chars "TCP" ∨ proto = chars "UDP" ∨ proto = chars "ICMP")
    (hifc1 : goodIfc ifc1) (hifc2 : goodIfc ifc2)
    (hip1 : goodIp ip1) (hip2 : goodIp ip2)
    (hp1 : goodPort p1) (hp2 : goodPort p2) :
    ∃ r : Record,
      parseConnectionLine
          (proto ++ ' ' :: ((ifc1 ++ [':']) ++ ' ' :: ((ip1 ++ '/' :: p1) ++ ' ' ::
            ((ifc2 ++ [':']) ++ ' ' :: (ip2 ++ '/' :: (p2 ++ [',']))))))
        = some r
      ∧ r.protocol = some proto ∧ r.src_ip = some ip1 ∧ r.src_port = some p1
      ∧ r.dst_ip = some ip2 ∧ r.dst_port = some p2 := by
  have hne1 : proto ≠ [] := by rcases hproto with h | h | h <;> subst h <;> decide
  have hws1 : ∀ c ∈ proto, isWS c = false := by
    rcases hproto with h | h | h <;> subst h <;> decide
  have hne2 : ifc1 ++ [':'] ≠ [] := by simp
  have hws2 : ∀ c ∈ ifc1 ++ [':'], isWS c = false := by
    intro c hc
    rcases List.mem_append.mp hc with h | h
    · exact (hifc1.2 c h).1
    · simp at h; rw [h]; decide
  have hne3 : ip1 ++ '/' :: p1 ≠ [] := by simp
  have hws3 : ∀ c ∈ ip1 ++ '/' :: p1, isWS c = false := by
    intro c hc
    rcases List.mem_append.mp hc with h | h
    · exact goodIp_notWS ip1 hip1 c h
    · rcases List.mem_cons.mp h with h | h
      · rw [h]; decide
      · exact digit_not_WS c (hp1.2 c h)
  have hne4 : ifc2 ++ [':'] ≠ [] := by simp
  have hws4 : ∀ c ∈ ifc2 ++ [':'], isWS c = false := by
    intro c hc
    rcases List.mem_append.mp hc with h | h
    · exact (hifc2.2 c h).1
    · simp at h; rw [h]; decide
  have hne5 : ip2 ++ '/' :: (p2 ++ [',']) ≠ [] := by simp
  have hws5 : ∀ c ∈ ip2 ++ '/' :: (p2 ++ [',']), isWS c = false := by
    intro c hc
    rcases List.mem_append.mp hc with h | h
    · exact goodIp_notWS ip2 hip2 c h
    · rcases List.mem_cons.mp h with h | h
      · rw [h]; decide
      · rcases List.mem_append.mp h with h | h
        · exact digit_not_WS c (hp2.2 c h)
        · simp at h; rw [h]; decide
  have hw : words (proto ++ ' ' :: ((ifc1 ++ [':']) ++ ' ' :: ((ip1 ++ '/' :: p1) ++ ' ' ::
        ((ifc2 ++ [':']) ++ ' ' :: (ip2 ++ '/' :: (p2 ++ [','])))))) =
      [proto, ifc1 ++ [':'], ip1 ++ '/' :: p1, ifc2 ++ [':'],
        ip2 ++ '/' :: (p2 ++ [','])] := by
    rw [words_word_space proto _ hne1 hws1,
        words_word_space _ _ hne2 hws2,
        words_word_space _ _ hne3 hws3,
        words_word_space _ _ hne4 hws4,
        words_single _ hne5 hws5]
  have hcA : containsC ':' proto = false := by
    rcases hproto with h | h | h <;> subst h <;> decide
  have hcB : containsC ':' (ifc1 ++ [':']) = true := containsC_append_cons ':' ifc1 []
  have hcC : containsC '/' (ip1 ++ '/' :: p1) = true := containsC_append_cons '/' ip1 p1
  have hsip : rstripC ',' (ip1 ++ '/' :: p1) = ip1 ++ '/' :: p1 := by
    apply rstripC_of_not_mem
    intro x hx
    rcases List.mem_append.mp hx with h | h
    · exact goodIp_ne ip1 hip1 ',' (by decide) (by decide) x h
    · rcases List.mem_cons.mp h with h | h
      · rw [h]; decide
      · exact goodPort_ne p1 hp1 ',' (by decide) x h
  have hsplit1 : splitC '/' (ip1 ++ '/' :: p1) = [ip1, p1] := by
    rw [splitC_append_cons '/' ip1 p1 (goodIp_ne ip1 hip1 '/' (by decide) (by decide)),
      splitC_of_not_mem '/' p1 (goodPort_ne p1 hp1 '/' (by decide))]
  have ht5 : ip2 ++ '/' :: (p2 ++ [',']) = (ip2 ++ '/' :: p2) ++ [','] := by simp
  have hdip : rstripC ',' (ip2 ++ '/' :: (p2 ++ [','])) = ip2 ++ '/' :: p2 := by
    rw [ht5, rstripC_append_single]
    apply rstripC_of_not_mem
    intro x hx
    rcases List.mem_append.mp hx with h | h
    · exact goodIp_ne ip2 hip2 ',' (by decide) (by decide) x h
    · rcases List.mem_cons.mp h with h | h
      · rw [h]; decide
      · exact goodPort_ne p2 hp2 ',' (by decide) x h
  have hcD : containsC '/' (ip2 ++ '/' :: p2) = true := containsC_append_cons '/' ip2 p2
  have hsplit2 : splitC '/' (ip2 ++ '/' :: p2) = [ip2, p2] := by
    rw [splitC_append_cons '/' ip2 p2 (goodIp_ne ip2 hip2 '/' (by decide) (by decide)),
      splitC_of_not_mem '/' p2 (goodPort_ne p2 hp2 '/' (by decide))]
  have hres : parseConnectionLine
      (proto ++ ' ' :: ((ifc1 ++ [':']) ++ ' ' :: ((ip1 ++ '/' :: p1) ++ ' ' ::
        ((ifc2 ++ [':']) ++ ' ' :: (ip2 ++ '/' :: (p2 ++ [','])))))) = some
      { emptyRecord with
          protocol := some proto,
          src_interface := some (rstripC ':' (ifc1 ++ [':'])),
          src_ip := some ip1, src_port := some p1,
          dst_interface := some (rstripC ':' (ifc2 ++ [':'])),
          dst_ip := some ip2, dst_port := some p2 } := by
    unfold parseConnectionLine
    rw [hw]
    simp only [connScan, hcA, Bool.false_and, Bool.false_eq_true, if_false,
      hcB, hcC, Bool.and_self, if_true, hsip, hsplit1, hdip, hcD, hsplit2, connDst]
  exact ⟨_, hres, rfl, rfl, rfl, rfl, rfl⟩

/-- Witness for C5 at the documented example line. -/
theorem C5_witness_sample_line :
    ∃ r : Record,
      parseConnectionLine (chars "UDP FORTISIEM: 10.1.76.4/45879 dc2: 10.1.5.101/53,")
        = some r
      ∧ r.protocol = some (chars "UDP") ∧ r.src_ip = some (chars "10.1.76.4")
      ∧ r.src_port = some (chars "45879") ∧ r.dst_ip = some (chars "10.1.5.101")
      ∧ r.dst_port = some (chars "53") := by
  have hline : chars "UDP FORTISIEM: 10.1.76.4/45879 dc2: 10.1.5.101/53," =
      chars "UDP" ++ ' ' :: ((chars "FORTISIEM" ++ [':']) ++ ' ' ::
        ((chars "10.1.76.4" ++ '/' :: chars "45879") ++ ' ' ::
          ((chars "dc2" ++ [':']) ++ ' ' ::
            (chars "10.1.5.101" ++ '/' :: (chars "53" ++ [',']))))) := by decide
  rw [hline]
  exact C5_main_line_roundtrip (chars "UDP") (chars "FORTISIEM") (chars "10.1.76.4")
    (chars "45879") (chars "dc2") (chars "10.1.5.101") (chars "53")
    (Or.inr (Or.inl rfl)) ⟨by decide, by decide⟩ ⟨by decide, by decide⟩
    ⟨by decide, by decide⟩ ⟨by decide, by decide⟩ ⟨by decide, by decide⟩
    ⟨by decide, by decide⟩

/-- Python `s.split(pat)` viewed through its first separator occurrence:
`some (before, after)` at the leftmost occurrence of `pat`, `none` when
`pat` does not occur. -/
def findSubSplit (pat : List Char) : List Char → Option (List Char × List Char)
  | [] => if startsWithL pat [] then some ([], []) else none
  | c :: rest =>
    if startsWithL pat (c :: rest) then some ([], (c :: rest).drop pat.length)
    else
      match findSubSplit pat rest with
      | some (b, a) => some (c :: b, a)
      | none => none

/-- Semantics of `re.search(key + r'\s+(\S+)', s)`: at the leftmost
occurrence of the keyword followed by at least one whitespace character
and a nonempty non-whitespace run, capture that run. -/
def findKeyTok (key : List Char) : List Char → Option (List Char)
  | [] => none
  | c :: rest =>
    if startsWithL key (c :: rest) then
      let after := (c :: rest).drop key.length
      let ws := after.takeWhile isWS
      let tok := (after.dropWhile isWS).takeWhile (fun x => !isWS x)
      if ws ≠ [] ∧ tok ≠ [] then some tok else findKeyTok key rest
    else findKeyTok key rest

/-- Semantics of `re.search(key + r'\s+(\d+)', s)`: like `findKeyTok` but
capturing a maximal digit run. -/
def findKeyNum (key : List Char) : List Char → Option (List Char)
  | [] => none
  | c :: rest =>
    if startsWithL key (c :: rest) then
      let after := (c :: rest).drop key.length
      let ws := after.takeWhile isWS
      let tok := (after.dropWhile isWS).takeWhile Char.isDigit
      if ws ≠ [] ∧ tok ≠ [] then some tok else findKeyNum key rest
    else findKeyNum key rest

/-- Semantics of `re.search(r'(Internal-Data\S+)', s)`: the key prefix
immediately followed by a nonempty non-whitespace run, both captured. -/
def findPrefTok (key : List Char) : List Char → Option (List Char)
  | [] => none
  | c :: rest =>
    if startsWithL key (c :: rest) then
      let tok := ((c :: rest).drop key.length).takeWhile (fun x => !isWS x)
      if tok ≠ [] then some (key ++ tok) else findPrefTok key rest
    else findPrefTok key rest

/-- A dotted quad `\d+\.\d+\.\d+\.\d+` anchored at the start of `s`. -/
def quadAt (s : List Char) : Option (List Char) :=
  let d1 := s.takeWhile Char.isDigit
  match s.dropWhile Char.isDigit with
  | '.' :: r1 =>
    let d2 := r1.takeWhile Char.isDigit
    match r1.dropWhile Char.isDigit with
    | '.' :: r2 =>
      let d3 := r2.takeWhile Char.isDigit
      match r2.dropWhile Char.isDigit with
      | '.' :: r3 =>
        let d4 := r3.takeWhile Char.isDigit
        if d1 ≠ [] ∧ d2 ≠ [] ∧ d3 ≠ [] ∧ d4 ≠ [] then
          some (d1 ++ '.' :: d2 ++ '.' :: d3 ++ '.' :: d4)
        else none
      | _ => none
    | _ => none
  | _ => none

/-- Semantics of `re.search(key + r'\s+(\d+\.\d+\.\d+\.\d+)', s)`. -/
def findKeyQuad (key : List Char) : List Char → Option (List Char)
  | [] => none
  | c :: rest =>
    if startsWithL key (c :: rest) then
      let after := (c :: rest).drop key.length
      let ws := after.takeWhile isWS
      match (if ws ≠ [] then quadAt (after.dropWhile isWS) else none) with
      | some q => some q
      | none => findKeyQuad key rest
    else findKeyQuad key rest

/-- The dictionary returned by `ConnectionParser._parse_flags_line`. -/
structure FlagsInfo where
  flags : Option (List Char) := none
  idle : Option (List Char) := none
  uptime : Option (List Char) := none
  timeout : Option (List Char) := none
  bytes : Option (List Char) := none
  rx_ring_num : Option (List Char) := none
  internal_data : Option (List Char) := none
deriving DecidableEq, Repr

/-- Python `s.replace('- ', '')`: remove every (leftmost, non-overlapping)
occurrence of the two-character pattern dash-space. -/
def removeDashSpace : List Char → List Char
  | '-' :: ' ' :: rest => removeDashSpace rest
  | c :: rest => c :: removeDashSpace rest
  | [] => []

/-- Model of `ConnectionParser._parse_flags_line`: the flags value is the text
between the first `flags` keyword and the earlier of the next `flags`
occurrence or the first comma, stripped, with every `"- "` and every
remaining `-` removed; the remaining fields come from independent
keyword-anchored searches over the whole line. -/
def parseFlagsLine (line : List Char) : FlagsInfo :=
  let flagsField : Option (List Char) :=
    if isInfixB (chars "flags") line then
      match findSubSplit (chars "flags") line with
      | some (_, after) =>
        let seg1 :=
          match findSubSplit (chars "flags") after with
          | some (b, _) => b
          | none => after
        some ((removeDashSpace (stripWS (seg1.takeWhile (· ≠ ',')))).filter (· ≠ '-'))
      | none => none
    else none
  { flags := flagsField,
    idle := findKeyTok (chars "idle") line,
    uptime := findKeyTok (chars "uptime") line,
    timeout := findKeyTok (chars "timeout") line,
    bytes := findKeyNum (chars "bytes") line,
    rx_ring_num := findKeyNum (chars "Rx-RingNum") line,
    internal_data := findPrefTok (chars "Internal-Data") line }

/-- Python `current.update(info)` for one optional field: a key present in
`info` overwrites, an absent key leaves the old value. -/
def mergeOpt (newv old : Option (List Char)) : Option (List Char) :=
  match newv with
  | some v => some v
  | none => old

/-- Model of `current_connection.update(flags_info)`. -/
def updFlags (r : Record) (fi : FlagsInfo) : Record :=
  { r with flags := mergeOpt fi.flags r.flags,
           idle := mergeOpt fi.idle r.idle,
           uptime := mergeOpt fi.uptime r.uptime,
           timeout := mergeOpt fi.timeout r.timeout,
           bytes := mergeOpt fi.bytes r.bytes,
           rx_ring_num := mergeOpt fi.rx_ring_num r.rx_ring_num,
           internal_data := mergeOpt fi.internal_data r.internal_data }

/-- Model of `ConnectionParser._parse_initiator_responder` merged into the open
record: each dotted-quad is stored only when its search matches. -/
def updInitResp (r : Record) (line : List Char) : Record :=
  let r1 :=
    match findKeyQuad (chars "Initiator:") line with
    | some q => { r with initiator_ip := some q }
    | none => r
  match findKeyQuad (chars "Responder:") line with
  | some q => { r1 with responder_ip := some q }
  | none => r1

/-- Python `line.split(':')[-1]`. -/
def afterLastColon (line : List Char) : List Char :=
  (splitC ':' line).getLastD []

/-- The `^(TCP|UDP|ICMP)` prefix test starting a new record. -/
def protoLine (l : List Char) : Bool :=
  startsWithL (chars "TCP") l || startsWithL (chars "UDP") l || startsWithL (chars "ICMP") l

/-- The line loop of `ConnectionParser.parse_file_simple`; `none` models
an uncaught exception escaping the loop. -/
def parseFileSimpleAux (acc : List Record) (cur : Record) :
    List (List Char) → Option (List Record)
  | [] => some (if recNonEmpty cur then acc ++ [cur] else acc)
  | l :: ls =>
    let line := stripWS l
    if line = [] then parseFileSimpleAux acc cur ls
    else if protoLine line then
      match parseConnectionLine line with
      | none => none
      | some r => parseFileSimpleAux (if recNonEmpty cur then acc ++ [cur] else acc) r ls
    else if startsWithL (chars "flags") line then
      parseFileSimpleAux acc (updFlags cur (parseFlagsLine line)) ls
    else if isInfixB (chars "Initiator:") line && isInfixB (chars "Responder:") line then
      parseFileSimpleAux acc (updInitResp cur line) ls
    else if isInfixB (chars "Connection lookup keyid:") line then
      parseFileSimpleAux acc { cur with keyid := some (stripWS (afterLastColon line)) } ls
    else parseFileSimpleAux acc cur ls

/-- Model of `ConnectionParser.parse_file_simple` on the file's lines. -/
def parseFileSimple (ls : List (List Char)) : Option (List Record) :=
  parseFileSimpleAux [] emptyRecord ls

/-- A record protocol (when present) begins with TCP, UDP or ICMP. -/
def protOK (r : Record) : Prop :=
  ∀ p, r.protocol = some p → protoLine p = true

theorem startsWithL_iff_append (pat : List Char) :
    ∀ s, startsWithL pat s = true ↔ ∃ t, s = pat ++ t := by
  induction pat with
  | nil => intro s; simp [startsWithL]
  | cons x xs ih =>
    intro s
    cases s with
    | nil => simp [startsWithL]
    | cons c cs =>
      rw [startsWithL]
      constructor
      · intro h
        obtain ⟨h1, h2⟩ := Bool.and_eq_true_iff.mp h
        obtain ⟨t, ht⟩ := (ih cs).mp h2
        exact ⟨t, by simp [ht, (decide_eq_true_iff ..).mp h1]⟩
      · rintro ⟨t, ht⟩
        simp only [List.cons_append, List.cons.injEq] at ht
        refine Bool.and_eq_true_iff.mpr ⟨by simp [ht.1], (ih cs).mpr ⟨t, ht.2⟩⟩

theorem startsWithL_append_self (pat t : List Char) :
    startsWithL pat (pat ++ t) = true :=
  (startsWithL_iff_append pat (pat ++ t)).mpr ⟨t, rfl⟩

theorem wordsAux_first (rest : List Char) :
    ∀ acc, acc ≠ [] → ∃ t ws, wordsAux rest acc = (acc.reverse ++ t) :: ws := by
  induction rest with
  | nil =>
    intro acc hacc
    exact ⟨[], [], by simp [wordsAux, hacc]⟩
  | cons c rest ih =>
    intro acc hacc
    by_cases hc : isWS c = true
    · refine ⟨[], wordsAux rest [], ?_⟩
      simp [wordsAux, hc, hacc]
    · obtain ⟨t, ws, hw⟩ := ih (c :: acc) (by simp)
      refine ⟨c :: t, ws, ?_⟩
      rw [wordsAux]
      simp only [hc, if_false]
      rw [hw]
      simp

theorem words_first_prefix (pre line : List Char) (hpre : pre ≠ [])
    (hws : ∀ c ∈ pre, isWS c = false) (h : startsWithL pre line = true) :
    ∃ w ws, words line = w :: ws ∧ startsWithL pre w = true := by
  obtain ⟨t, ht⟩ := (startsWithL_iff_append pre line).mp h
  subst ht
  unfold words
  rw [wordsAux_append_word pre hws t [], List.append_nil]
  obtain ⟨t2, ws, hw⟩ := wordsAux_first t pre.reverse (by simpa using hpre)
  rw [hw, List.reverse_reverse]
  exact ⟨pre ++ t2, ws, rfl, startsWithL_append_self pre t2⟩

theorem connDst_protocol (r2 r' : Record) (rest2 : List (List Char))
    (h : connDst r2 rest2 = some r') : r'.protocol = r2.protocol := by
  cases rest2 with
  | nil =>
    simp only [connDst] at h
    injection h with h; subst h; rfl
  | cons d rest3 =>
    cases rest3 with
    | nil =>
      simp only [connDst] at h
      injection h with h; subst h; rfl
    | cons t rest4 =>
      simp only [connDst] at h
      split at h
      · split at h
        · injection h with h; subst h; rfl
        · exact absurd h (by simp)
      · injection h with h; subst h; rfl

theorem connScan_protocol : ∀ (ts : List (List Char)) (r r' : Record),
    connScan r ts = some r' → r'.protocol = r.protocol := by
  intro ts
  induction ts with
  | nil =>
    intro r r' h
    simp only [connScan] at h
    injection h with h; subst h; rfl
  | cons p rest ih =>
    intro r r' h
    cases rest with
    | nil =>
      simp only [connScan] at h
      injection h with h; subst h; rfl
    | cons q rest2 =>
      simp only [connScan] at h
      split at h
      · split at h
        · split at h
          · have h2 := connDst_protocol _ _ _ h
            exact h2
          · exact absurd h (by simp)
        · have h2 := connDst_protocol _ _ _ h
          exact h2
      · exact ih _ _ h

theorem parseConnectionLine_protOK (line : List Char) (r : Record)
    (hp : protoLine line = true) (h : parseConnectionLine line = some r) :
    protOK r := by
  intro p hpp
  have hp' : (startsWithL (chars "TCP") line = true ∨ startsWithL (chars "UDP") line = true)
      ∨ startsWithL (chars "ICMP") line = true := by
    simpa [protoLine, Bool.or_eq_true] using hp
  have hpre : ∃ pre, (pre = chars "TCP" ∨ pre = chars "UDP" ∨ pre = chars "ICMP")
      ∧ startsWithL pre line = true := by
    rcases hp' with (h1 | h1) | h1
    · exact ⟨chars "TCP", Or.inl rfl, h1⟩
    · exact ⟨chars "UDP", Or.inr (Or.inl rfl), h1⟩
    · exact ⟨chars "ICMP", Or.inr (Or.inr rfl), h1⟩
  obtain ⟨pre, hmem, hsw⟩ := hpre
  have hprene : pre ≠ [] := by rcases hmem with h1|h1|h1 <;> subst h1 <;> decide
  have hprews : ∀ c ∈ pre, isWS c = false := by
    rcases hmem with h1|h1|h1 <;> subst h1 <;> decide
  obtain ⟨w, ws, hw, hwpre⟩ := words_first_prefix pre line hprene hprews hsw
  unfold parseConnectionLine at h
  rw [hw] at h
  have hpr := connScan_protocol _ _ _ h
  have hwp : w = p := by
    rw [hpr] at hpp
    exact Option.some.inj hpp
  subst hwp
  rw [protoLine]
  rcases hmem with h1|h1|h1 <;> subst h1 <;> simp [hwpre]

theorem pfsAux_protOK : ∀ (lines : List (List Char)) (acc : List Record) (cur : Record)
    (recs : List Record),
    (∀ r ∈ acc, protOK r) → protOK cur →
    parseFileSimpleAux acc cur lines = some recs → ∀ r ∈ recs, protOK r := by
  intro lines
  induction lines with
  | nil =>
    intro acc cur recs hacc hcur h r hr
    simp only [parseFileSimpleAux] at h
    injection h with h
    subst h
    by_cases hc : recNonEmpty cur = true
    · rw [if_pos hc] at hr
      rcases List.mem_append.mp hr with h1 | h1
      · exact hacc r h1
      · simp at h1; subst h1; exact hcur
    · rw [if_neg hc] at hr
      exact hacc r hr
  | cons l ls ih =>
    intro acc cur recs hacc hcur h
    simp only [parseFileSimpleAux] at h
    by_cases h1 : stripWS l = []
    · rw [if_pos h1] at h
      exact ih _ _ _ hacc hcur h
    · rw [if_neg h1] at h
      by_cases h2 : protoLine (stripWS l) = true
      · rw [if_pos h2] at h
        cases hp : parseConnectionLine (stripWS l) with
        | none => rw [hp] at h; exact absurd h (by simp)
        | some r' =>
          rw [hp] at h
          refine ih _ _ _ ?_ (parseConnectionLine_protOK _ _ h2 hp) h
          intro r hr
          by_cases hc : recNonEmpty cur = true
          · rw [if_pos hc] at hr
            rcases List.mem_append.mp hr with hm | hm
            · exact hacc r hm
            · simp at hm; subst hm; exact hcur
          · rw [if_neg hc] at hr
            exact hacc r hr
      · rw [if_neg h2] at h
        by_cases h3 : startsWithL (chars "flags") (stripWS l) = true
        · rw [if_pos h3] at h
          exact ih acc (updFlags cur (parseFlagsLine (stripWS l))) recs hacc
            (fun p hp => hcur p hp) h
        · rw [if_neg h3] at h
          by_cases h4 : (isInfixB (chars "Initiator:") (stripWS l)
              && isInfixB (chars "Responder:") (stripWS l)) = true
          · rw [if_pos h4] at h
            refine ih _ _ _ hacc ?_ h
            intro p hp
            apply hcur p
            rw [← hp]
            unfold updInitResp
            cases findKeyQuad (chars "Initiator:") (stripWS l) <;>
              cases findKeyQuad (chars "Responder:") (stripWS l) <;> rfl
          · rw [if_neg h4] at h
            by_cases h5 : isInfixB (chars "Connection lookup keyid:") (stripWS l) = true
            · rw [if_pos h5] at h
              exact ih acc ({ cur with keyid := some (stripWS (afterLastColon (stripWS l))) })
                recs hacc (fun p hp => hcur p hp) h
            · rw [if_neg h5] at h
              exact ih _ _ _ hacc hcur h

/-- C7 (amended): every record emitted by the simple file parser has
either no protocol field (possible when the input opens with continuation
lines) or a protocol that merely begins with TCP, UDP or ICMP (the first
token of a line matched by the prefix test `^(TCP|UDP|ICMP)`, which does
not require the token to equal the matched keyword). -/
theorem C7_protocol_prefix_invariant (lines : List (List Char)) (recs : List Record)
    (h : parseFileSimple lines = some recs) :
    ∀ r ∈ recs, ∀ p, r.protocol = some p → protoLine p = true := by
  have hstep := pfsAux_protOK lines [] emptyRecord recs (by intro r hr; exact absurd hr (by simp))
    (fun p hp => Option.noConfusion hp) h
  exact fun r hr => hstep r hr

/-- C7 counterexample: the line `"TCPX"` starts a record whose protocol is
`"TCPX"`, not one of TCP/UDP/ICMP, and a leading continuation line yields
a record with no protocol at all — refuting the claim that every emitted
record's protocol is exactly one of the three keywords. -/
theorem C7_counterexample :
    parseFileSimple [chars "TCPX"] =
        some [{ emptyRecord with protocol := some (chars "TCPX") }]
      ∧ chars "TCPX" ≠ chars "TCP" ∧ chars "TCPX" ≠ chars "UDP"
      ∧ chars "TCPX" ≠ chars "ICMP"
      ∧ parseFileSimple [chars "flags N1, bytes 28"] =
        some [{ emptyRecord with flags := some (chars "N1"),
                                 bytes := some (chars "28") }]
      ∧ ({ emptyRecord with
             flags := some (chars "N1"),
             bytes := some (chars "28") } : Record).protocol = none := by
  refine ⟨by decide, by decide, by decide, by decide, by decide, rfl⟩

/-- Witness for C7 (amended) at a concrete input: the parser run on the
single line `"TCPX"` emits a record whose protocol passes the prefix
test. -/
theorem C7_witness_prefix :
    protoLine (chars "TCPX") = true := by
  have h := C7_protocol_prefix_invariant [chars "TCPX"]
      [{ emptyRecord with protocol := some (chars "TCPX") }] (by decide)
  exact h ({ emptyRecord with protocol := some (chars "TCPX") }) (by decide)
    (chars "TCPX") rfl

theorem isInfixB_of_startsWith (pat s : List Char) (h : startsWithL pat s = true) :
    isInfixB pat s = true := by
  cases s with
  | nil => simpa [isInfixB] using h
  | cons c cs => simp [isInfixB, h]

theorem findSubSplit_prefix (pat s : List Char) (hpat : pat ≠ []) :
    findSubSplit pat (pat ++ s) = some ([], s) := by
  cases hp : pat with
  | nil => exact absurd hp hpat
  | cons c pt =>
    subst hp
    rw [List.cons_append, findSubSplit,
      if_pos (show startsWithL (c :: pt) (c :: (pt ++ s)) = true from
        startsWithL_append_self (c :: pt) s)]
    simp

/-- C8 counterexample: on the flags line `"flags U-IO N1, bytes 28"` the
stored rawFlags is `"UIO N1"`: the interior dash of the flag token
sequence is removed, not preserved, so rawFlags is not the raw substring
between the keyword and the first comma with only a leading marker
stripped. -/
theorem C8_counterexample :
    (parseFlagsLine (chars "flags U-IO N1, bytes 28")).flags = some (chars "UIO N1")
      ∧ chars "UIO N1" ≠ chars "U-IO N1" := by
  exact ⟨by decide, by decide⟩

/-- C8 (amended): for a line starting with the `flags` keyword that does
not contain a second `flags` occurrence, rawFlags is the text between the
keyword and the first comma, stripped of surrounding whitespace, with ALL
occurrences of dash-space and of the remaining dashes removed (not only a
leading marker). -/
theorem C8_flags_extraction_amended (rest : List Char)
    (hone : findSubSplit (chars "flags") rest = none) :
    (parseFlagsLine (chars "flags" ++ rest)).flags =
      some ((removeDashSpace (stripWS (rest.takeWhile (· ≠ ',')))).filter (· ≠ '-')) := by
  have hinf : isInfixB (chars "flags") (chars "flags" ++ rest) = true :=
    isInfixB_of_startsWith _ _ (startsWithL_append_self (chars "flags") rest)
  have hfind := findSubSplit_prefix (chars "flags") rest (by decide)
  simp only [parseFlagsLine, hinf, if_true, hfind, hone]

/-- Witness for C8 (amended) on the counterexample line. -/
theorem C8_witness_amended :
    (parseFlagsLine (chars "flags U-IO N1, bytes 28")).flags =
      some ((removeDashSpace (stripWS ((chars " U-IO N1, bytes 28").takeWhile
        (· ≠ ',')))).filter (· ≠ '-')) := by
  have h := C8_flags_extraction_amended (chars " U-IO N1, bytes 28") (by decide)
  exact h

/-- One elephant-flow result row: the connection dictionary extended by
`find_elephant_flows` with parsed values, qualification booleans, the
decoded flag dictionary, the rate record, the combined score and the
human-readable type label. -/
structure EFlow where
  base : Record
  uptime_seconds : ℕ
  uptime_hours : ℚ
  bytes_int : ℕ
  is_long_lived : Bool
  is_high_volume : Bool
  is_high_rate : Bool
  is_flagged_elephant : Bool
  is_offloaded_elephant : Bool
  flag_info : Option FlagInfo
  rate : RateInfo
  combined_score : ℚ
  elephant_flow_type : List Char
deriving DecidableEq, Repr

/-- Python `' + '.join(parts)`. -/
def joinSep (sep : List Char) : List (List Char) → List Char
  | [] => []
  | [x] => x
  | x :: xs => x ++ sep ++ joinSep sep xs

/-- The per-record body of the `find_elephant_flows` loop. -/
def enrichConn (minUpSec : ℚ) (minBytes : ℤ) (minMbps : ℚ) (incF incO : Bool)
    (conn : Record) : EFlow :=
  let uptime_seconds : ℕ :=
    match conn.uptime with
    | some u => parseTimeToSeconds u
    | none => 0
  let bytes_count : ℕ :=
    match conn.bytes with
    | some b => if isDigits b then digitsVal b else 0
    | none => 0
  let flag_info := flagInfoOf conn.flags
  let rate := calcTrafficRate (bytes_count : ℤ) (uptime_seconds : ℤ)
  let is_long_lived := decide ((uptime_seconds : ℚ) ≥ minUpSec)
  let is_high_volume := decide ((bytes_count : ℤ) ≥ minBytes)
  let is_high_rate := decide (rate.mbps ≥ minMbps)
  let is_flagged_elephant := fiHasElephant flag_info && incF
  let is_offloaded_elephant := fiIsOffloaded flag_info && incO
  let flaggedLabel :=
    chars "Flagged-" ++
      (match flag_info with
       | some fi =>
         match fi.elephant_flag_type with
         | some t => t
         | none => chars "None"
       | none => chars "N?")
  let flow_types :=
    (if is_long_lived then [chars "Long-lived"] else []) ++
    (if is_high_volume then [chars "High-volume"] else []) ++
    (if is_high_rate then [chars "High-rate"] else []) ++
    (if is_flagged_elephant then [flaggedLabel] else []) ++
    (if is_offloaded_elephant then [chars "Offloaded"] else [])
  { base := conn,
    uptime_seconds := uptime_seconds,
    uptime_hours := (uptime_seconds : ℚ) / 3600,
    bytes_int := bytes_count,
    is_long_lived := is_long_lived,
    is_high_volume := is_high_volume,
    is_high_rate := is_high_rate,
    is_flagged_elephant := is_flagged_elephant,
    is_offloaded_elephant := is_offloaded_elephant,
    flag_info := flag_info,
    rate := rate,
    combined_score := (uptime_seconds : ℚ) / 3600 + (bytes_count : ℚ) / 1000000
      + rate.mbps * 10,
    elephant_flow_type := joinSep (chars " + ") flow_types }

/-- Stable insertion keeping keys in non-increasing order: models the
stable `list.sort(key=..., reverse=True)`. -/
def insertDesc (key : EFlow → ℚ) (x : EFlow) : List EFlow → List EFlow
  | [] => [x]
  | y :: ys => if key y < key x then x :: y :: ys else y :: insertDesc key x ys

/-- Stable descending sort by a rational key. -/
def sortDescBy (key : EFlow → ℚ) (l : List EFlow) : List EFlow :=
  l.foldl (fun acc x => insertDesc key x acc) []

/-- Model of `ConnectionParser.find_elephant_flows`: empty stored collection gives
an empty result; otherwise every record is enriched, kept when any of the
five qualification criteria holds, and the kept rows are sorted by the
requested key (descending), falling back to bytes for an unrecognized
key. -/
def findElephantFlows (minUp : ℚ) (minBytes : ℤ) (minMbps : ℚ) (sortBy : List Char)
    (incF incO : Bool) (conns : List Record) : List EFlow :=
  if conns = [] then []
  else
    let minUpSec := minUp * 3600
    let flows := conns.filterMap (fun conn =>
      let f := enrichConn minUpSec minBytes minMbps incF incO conn
      if f.is_long_lived || f.is_high_volume || f.is_high_rate
          || f.is_flagged_elephant || f.is_offloaded_elephant
      then some f else none)
    if sortBy = chars "uptime" then sortDescBy (fun f => (f.uptime_seconds : ℚ)) flows
    else if sortBy = chars "bytes" then sortDescBy (fun f => (f.bytes_int : ℚ)) flows
    else if sortBy = chars "rate" then sortDescBy (fun f => f.rate.mbps) flows
    else if sortBy = chars "both" then sortDescBy (fun f => f.combined_score) flows
    else sortDescBy (fun f => (f.bytes_int : ℚ)) flows

theorem insertDesc_length (key : EFlow → ℚ) (x : EFlow) (l : List EFlow) :
    (insertDesc key x l).length = l.length + 1 := by
  induction l with
  | nil => rfl
  | cons y ys ih =>
    rw [insertDesc]
    split
    · simp
    · simp [ih]

theorem sortDescBy_foldl_length (key : EFlow → ℚ) (l acc : List EFlow) :
    (l.foldl (fun acc x => insertDesc key x acc) acc).length = acc.length + l.length := by
  induction l generalizing acc with
  | nil => simp
  | cons x xs ih =>
    rw [List.foldl_cons, ih, insertDesc_length, List.length_cons]
    omega

theorem sortDescBy_length (key : EFlow → ℚ) (l : List EFlow) :
    (sortDescBy key l).length = l.length := by
  rw [sortDescBy, sortDescBy_foldl_length]
  simp

theorem filterMap_if_true_length {α β : Type} (P : α → Bool) (g : α → β)
    (h : ∀ a, P a = true) (l : List α) :
    (l.filterMap (fun a => if P a then some (g a) else none)).length = l.length := by
  induction l with
  | nil => rfl
  | cons a l ih => simp [List.filterMap_cons, h a, ih]

/-- Sample connection 1: 28 bytes over 21 seconds, UDP. -/
def sampleConn1 : Record :=
  { emptyRecord with protocol := some (chars "UDP"), uptime := some (chars "21s"),
                     bytes := some (chars "28") }

/-- Sample connection 2: 14395 bytes over 2h39m, TCP. -/
def sampleConn2 : Record :=
  { emptyRecord with protocol := some (chars "TCP"), uptime := some (chars "2h39m"),
                     bytes := some (chars "14395") }

/-- Sample connection 3: 7,688,943,400,093 bytes over 1Y25D, UDP,
offloaded flag. -/
def sampleConn3 : Record :=
  { emptyRecord with protocol := some (chars "UDP"), uptime := some (chars "1Y25D"),
                     bytes := some (chars "7688943400093"), flags := some (chars "-o") }

/-- C1: with all thresholds at zero every record qualifies — the
classifier returns one result per stored record for any sort key and any
include flags — and on the three sample connections with
`includeOffloaded = true` all three records come back (sorted by bytes
descending) with the offloaded third sample marked
`is_offloaded_elephant`. -/
theorem C1_zero_thresholds_qualify_all :
    (∀ (sortBy : List Char) (incF incO : Bool) (conns : List Record),
        (findElephantFlows 0 0 0 sortBy incF incO conns).length = conns.length)
      ∧ (findElephantFlows 0 0 0 (chars "bytes") true true
          [sampleConn1, sampleConn2, sampleConn3]).map EFlow.base
        = [sampleConn3, sampleConn2, sampleConn1]
      ∧ (findElephantFlows 0 0 0 (chars "bytes") true true
          [sampleConn1, sampleConn2, sampleConn3]).map EFlow.is_offloaded_elephant
        = [true, false, false] := by
  have hmz : (0 : ℚ) * 3600 = 0 := by norm_num
  refine ⟨?_, ?_, ?_⟩
  · intro sortBy incF incO conns
    by_cases hc : conns = []
    · simp [findElephantFlows, hc]
    · have hq : ∀ conn : Record,
          ((enrichConn (0 * 3600) 0 0 incF incO conn).is_long_lived
            || (enrichConn (0 * 3600) 0 0 incF incO conn).is_high_volume
            || (enrichConn (0 * 3600) 0 0 incF incO conn).is_high_rate
            || (enrichConn (0 * 3600) 0 0 incF incO conn).is_flagged_elephant
            || (enrichConn (0 * 3600) 0 0 incF incO conn).is_offloaded_elephant) = true := by
        intro conn
        have h1 : (enrichConn (0 * 3600) 0 0 incF incO conn).is_long_lived = true := by
          simp only [enrichConn, hmz, ge_iff_le, decide_eq_true_eq]
          exact Nat.cast_nonneg _
        rw [h1]
        simp
      simp only [findElephantFlows]
      rw [if_neg hc]
      split_ifs <;>
        (rw [sortDescBy_length]; exact filterMap_if_true_length _ _ hq conns)
  · simp only [findElephantFlows, hmz]
    decide
  · simp only [findElephantFlows, hmz]
    decide

/-- The statistics dictionary of `get_elephant_flow_stats`; frequency
`Counter` objects are modelled by the multiset (list) of counted values,
and `f.get('protocol')`-style access by `Option`. -/
structure FlowStats where
  total_elephant_flows : ℕ
  percentage_of_total : ℚ
  long_lived_only : ℕ
  high_volume_only : ℕ
  both_criteria : ℕ
  total_bytes_elephant : ℕ
  avg_uptime_hours : ℚ
  avg_bytes : ℚ
  max_uptime_hours : ℚ
  max_bytes : ℕ
  protocols : List (Option (List Char))
  top_source_ips : List (Option (List Char))
  top_dest_ips : List (Option (List Char))
deriving DecidableEq, Repr

/-- Model of `ConnectionParser.get_elephant_flow_stats`: an empty flow list
returns the empty dictionary (`ok none`); otherwise
`percentage_of_total` divides by the stored connection count with no
guard, so an empty stored collection raises `ZeroDivisionError`
(modelled `error ()`). -/
def getElephantFlowStats (conns : List Record) (flows : List EFlow) :
    Except Unit (Option FlowStats) :=
  match flows with
  | [] => Except.ok none
  | f :: fs =>
    if conns.length = 0 then Except.error ()
    else
      Except.ok (some
        { total_elephant_flows := (f :: fs).length,
          percentage_of_total := ((f :: fs).length : ℚ) / (conns.length : ℚ) * 100,
          long_lived_only :=
            ((f :: fs).filter (fun x => x.is_long_lived && !x.is_high_volume)).length,
          high_volume_only :=
            ((f :: fs).filter (fun x => x.is_high_volume && !x.is_long_lived)).length,
          both_criteria :=
            ((f :: fs).filter (fun x => x.is_long_lived && x.is_high_volume)).length,
          total_bytes_elephant := ((f :: fs).map EFlow.bytes_int).sum,
          avg_uptime_hours :=
            ((f :: fs).map EFlow.uptime_hours).sum / (((f :: fs).length : ℕ) : ℚ),
          avg_bytes :=
            ((((f :: fs).map EFlow.bytes_int).sum : ℕ) : ℚ) / (((f :: fs).length : ℕ) : ℚ),
          max_uptime_hours := (fs.map EFlow.uptime_hours).foldl max f.uptime_hours,
          max_bytes := (fs.map EFlow.bytes_int).foldl max f.bytes_int,
          protocols := (f :: fs).map (fun x => x.base.protocol),
          top_source_ips := (f :: fs).map (fun x => x.base.src_ip),
          top_dest_ips := (f :: fs).map (fun x => x.base.dst_ip) })

/-- Byte statistics of `analyze_connections` (`float('inf')` initial
minimum becomes 0 when no byte values exist, per the final fix-up in the
source). -/
structure ByteStats where
  total_bytes : ℕ
  max_bytes : ℕ
  min_bytes : ℕ
  avg_bytes : ℚ
deriving DecidableEq, Repr

/-- The statistics dictionary of `analyze_connections`. -/
structure ConnStats where
  total_connections : ℕ
  protocols : List (List Char)
  source_interfaces : List (List Char)
  destination_interfaces : List (List Char)
  top_source_ips : List (List Char)
  top_destination_ips : List (List Char)
  top_ports : List (List Char)
  flags_summary : List (List Char)
  byte_statistics : ByteStats
deriving DecidableEq, Repr

/-- The byte values collected by `analyze_connections`: present `bytes`
fields that pass `isdigit`. -/
def connByteValues (conns : List Record) : List ℕ :=
  conns.filterMap (fun c =>
    match c.bytes with
    | some b => if isDigits b then some (digitsVal b) else none
    | none => none)

/-- Model of `ConnectionParser.analyze_connections`: an empty stored collection
prints a message and returns `None`; otherwise counters and byte
statistics are accumulated over the records. -/
def analyzeConnections (conns : List Record) : Option ConnStats :=
  match conns with
  | [] => none
  | _ =>
    let bvs := connByteValues conns
    some
      { total_connections := conns.length,
        protocols := conns.filterMap (fun c => c.protocol),
        source_interfaces := conns.filterMap (fun c => c.src_interface),
        destination_interfaces := conns.filterMap (fun c => c.dst_interface),
        top_source_ips := conns.filterMap (fun c => c.src_ip),
        top_destination_ips := conns.filterMap (fun c => c.dst_ip),
        top_ports := conns.filterMap (fun c => c.dst_port),
        flags_summary := conns.filterMap (fun c => c.flags),
        byte_statistics :=
          { total_bytes := bvs.sum,
            max_bytes := bvs.foldl max 0,
            min_bytes :=
              match bvs with
              | [] => 0
              | v :: vs => vs.foldl min v,
            avg_bytes := if bvs = [] then 0 else (bvs.sum : ℚ) / ((bvs.length : ℕ) : ℚ) } }

/-- The all-zero statistics record that C9, read literally, would require
for empty input. -/
def zeroFlowStats : FlowStats :=
  { total_elephant_flows := 0, percentage_of_total := 0, long_lived_only := 0,
    high_volume_only := 0, both_criteria := 0, total_bytes_elephant := 0,
    avg_uptime_hours := 0, avg_bytes := 0, max_uptime_hours := 0, max_bytes := 0,
    protocols := [], top_source_ips := [], top_dest_ips := [] }

/-- C9 counterexample: on an empty flow list `get_elephant_flow_stats`
returns the empty dictionary, not a populated zeroed statistics record,
and `analyze_connections` on an empty collection returns `None`, not a
zeroed record — though neither raises. -/
theorem C9_counterexample :
    getElephantFlowStats [sampleConn1] [] = Except.ok none
      ∧ (Except.ok (none : Option FlowStats) : Except Unit (Option FlowStats))
          ≠ Except.ok (some zeroFlowStats)
      ∧ analyzeConnections [] = none
      ∧ (none : Option ConnStats) ≠
          some { total_connections := 0, protocols := [], source_interfaces := [],
                 destination_interfaces := [], top_source_ips := [],
                 top_destination_ips := [], top_ports := [], flags_summary := [],
                 byte_statistics :=
                   { total_bytes := 0, max_bytes := 0, min_bytes := 0, avg_bytes := 0 } } := by
  exact ⟨rfl, by simp, rfl, by simp⟩

/-- C9 (amended): both aggregation operations handle an empty collection
without raising, returning an empty sentinel — the empty dictionary for
`get_elephant_flow_stats` (for any stored connection collection, so the
unguarded division is not reached) and `None` for
`analyze_connections` — rather than a populated zeroed record. -/
theorem C9_empty_input_amended :
    (∀ conns : List Record, getElephantFlowStats conns [] = Except.ok none)
      ∧ analyzeConnections [] = none :=
  ⟨fun _ => rfl, rfl⟩

/-- C10: a nonempty classifier result implies the stored collection is
nonempty (the classifier returns `[]` on an empty store), and under that
precondition `get_elephant_flow_stats` reaches no division by zero,
returning a record whose `percentage_of_total` is
`len(flows)/len(connections)*100`; with an empty store and a nonempty
flow list the unguarded division raises. -/
theorem C10_percentage_safety (minUp : ℚ) (minBytes : ℤ) (minMbps : ℚ)
    (sortBy : List Char) (incF incO : Bool) (conns : List Record)
    (hne : findElephantFlows minUp minBytes minMbps sortBy incF incO conns ≠ []) :
    conns ≠ []
      ∧ (∃ s, getElephantFlowStats conns
            (findElephantFlows minUp minBytes minMbps sortBy incF incO conns)
          = Except.ok (some s)
          ∧ s.percentage_of_total =
            ((findElephantFlows minUp minBytes minMbps sortBy incF incO conns).length : ℚ)
              / (conns.length : ℚ) * 100)
      ∧ ∀ (f : EFlow) (fs : List EFlow),
          getElephantFlowStats [] (f :: fs) = Except.error () := by
  have hcne : conns ≠ [] := by
    intro h
    rw [h] at hne
    exact hne (by simp [findElephantFlows])
  refine ⟨hcne, ?_, fun f fs => rfl⟩
  rcases hf : findElephantFlows minUp minBytes minMbps sortBy incF incO conns with
    _ | ⟨f, fs⟩
  · exact absurd hf hne
  · have hlen : ¬ conns.length = 0 := by
      simpa [List.length_eq_zero] using hcne
    refine ⟨{ total_elephant_flows := (f :: fs).length,
              percentage_of_total := ((f :: fs).length : ℚ) / (conns.length : ℚ) * 100,
              long_lived_only :=
                ((f :: fs).filter (fun x => x.is_long_lived && !x.is_high_volume)).length,
              high_volume_only :=
                ((f :: fs).filter (fun x => x.is_high_volume && !x.is_long_lived)).length,
              both_criteria :=
                ((f :: fs).filter (fun x => x.is_long_lived && x.is_high_volume)).length,
              total_bytes_elephant := ((f :: fs).map EFlow.bytes_int).sum,
              avg_uptime_hours :=
                ((f :: fs).map EFlow.uptime_hours).sum / (((f :: fs).length : ℕ) : ℚ),
              avg_bytes :=
                ((((f :: fs).map EFlow.bytes_int).sum : ℕ) : ℚ)
                  / (((f :: fs).length : ℕ) : ℚ),
              max_uptime_hours := (fs.map EFlow.uptime_hours).foldl max f.uptime_hours,
              max_bytes := (fs.map EFlow.bytes_int).foldl max f.bytes_int,
              protocols := (f :: fs).map (fun x => x.base.protocol),
              top_source_ips := (f :: fs).map (fun x => x.base.src_ip),
              top_dest_ips := (f :: fs).map (fun x => x.base.dst_ip) }, ?_, rfl⟩
    simp only [getElephantFlowStats]
    rw [if_neg hlen]

/-- Witness for C10 at the sample connections with zero thresholds. -/
theorem C10_witness_sample :
    ([sampleConn1, sampleConn2, sampleConn3] : List Record) ≠ []
      ∧ ∃ s, getElephantFlowStats [sampleConn1, sampleConn2, sampleConn3]
          (findElephantFlows 0 0 0 (chars "bytes") true true
            [sampleConn1, sampleConn2, sampleConn3]) = Except.ok (some s) := by
  have hne : findElephantFlows 0 0 0 (chars "bytes") true true
      [sampleConn1, sampleConn2, sampleConn3] ≠ [] := by
    have hmz : (0 : ℚ) * 3600 = 0 := by norm_num
    simp only [findElephantFlows, hmz]
    decide
  have h := C10_percentage_safety 0 0 0 (chars "bytes") true true
    [sampleConn1, sampleConn2, sampleConn3] hne
  obtain ⟨s, hs, _⟩ := h.2.1
  exact ⟨h.1, s, hs⟩
